import Mathlib

/-!
Verification model of the middleware-composition core of the
`lambda-middlewares` repository (`src/index.js`).

The JavaScript core is single-threaded and cooperative, so its `async`
functions are modelled as pure functions producing a pair of
* a trace (`List Ev`) of observable effects (markers emitted by the
  instrumented middlewares used in the theorems, plus the one
  `console.error` line the core writes when a link catches an error), and
* an `Outcome`: either a synchronously thrown exception (`thrown`), a
  fulfilled promise (`resolved`), or a rejected promise (`rejected`).
Values, errors, events and contexts are all opaque to the core and are
modelled as `Nat`.

A middleware body is a deep program (`Prog`) so that its interaction with
the `next` continuation (never calling it, calling it once or several
times, catching or propagating its failure) is explicit; a middleware as
passed to the core is a JavaScript function of `(event, context, next)`
that may also throw synchronously before returning a promise (`MwCall`).
-/

namespace LambdaMW

/-- Observable trace events: `ran i` and `saw i ev ctx` are markers emitted
by instrumented middlewares/handlers in the theorems below; `logged e` is
the `console.error` line `createMiddleware` writes when it catches `e`. -/
inductive Ev where
  | ran : Nat → Ev
  | saw : Nat → Nat → Nat → Ev
  | logged : Nat → Ev
deriving DecidableEq, Repr

/-- How a call of a JS function settles, seen by its immediate caller:
a synchronous exception, a fulfilled promise, or a rejected promise. -/
inductive Outcome where
  | thrown : Nat → Outcome
  | resolved : Nat → Outcome
  | rejected : Nat → Outcome
deriving DecidableEq, Repr

/-- A handler-shaped JS function: `(event, context) => effects + outcome`. -/
def JSFn : Type := Nat → Nat → List Ev × Outcome

/-- Deep embedding of a middleware body's control flow around `next`. -/
inductive Prog where
  | ret : Nat → Prog
  | throw : Nat → Prog
  | emit : Ev → Prog → Prog
  | callNext : (Except Nat Nat → Prog) → Prog

/-- A middleware invocation either throws synchronously before producing a
promise, or runs its body program. -/
inductive MwCall where
  | sthrow : Nat → MwCall
  | body : Prog → MwCall

/-- A middleware as passed to the core: `(event, context, next) => ...`
(the `next` continuation is consumed by the body program). -/
def Mw : Type := Nat → Nat → MwCall

/-- Translation of `dethrow` behaviour of `Promise.resolve(fn(...))` inside
an `async` body: a synchronous throw becomes a rejection. -/
def dethrow : Outcome → Outcome
  | .thrown e => .rejected e
  | o => o

/-- Translation of `ensureAsync` (src/index.js lines 18-21):
`(fn) => async (...args) => Promise.resolve(fn(...args))`. -/
def ensureAsync (fn : JSFn) : JSFn :=
  fun event context => ((fn event context).1, dethrow (fn event context).2)

/-- Awaiting a settled call: fulfilled gives a value, the other outcomes
raise the error to the awaiting code. -/
def settle : Outcome → Except Nat Nat
  | .thrown e => .error e
  | .resolved v => .ok v
  | .rejected e => .error e

/-- Model of `await ensureAsync(handler)(event, context)`, which is what a
middleware's `next()` call delivers. -/
def awaitF (handler : JSFn) (event context : Nat) : List Ev × Except Nat Nat :=
  ((ensureAsync handler event context).1, settle (ensureAsync handler event context).2)

/-- Run a middleware body program against a `next` continuation. -/
def Prog.run : Prog → (Unit → List Ev × Except Nat Nat) → List Ev × Except Nat Nat
  | .ret v, _ => ([], .ok v)
  | .throw e, _ => ([], .error e)
  | .emit t p, k =>
      match p.run k with
      | (tr, r) => (t :: tr, r)
  | .callNext f, k =>
      match k () with
      | (tr1, r1) =>
        match (f r1).run k with
        | (tr2, r2) => (tr1 ++ tr2, r2)

/-- Model of `await ensureAsync(middleware)(event, context, next)`: a
synchronous throw surfaces to the awaiting link as an error. -/
def runCall : MwCall → (Unit → List Ev × Except Nat Nat) → List Ev × Except Nat Nat
  | .sthrow e, _ => ([], .error e)
  | .body p, k => p.run k

/-- Translation of `createMiddleware` (src/index.js lines 30-56): wraps a
middleware and the next handler into a handler-shaped function; the
middleware gets `next = async () => ensureAsync(handler)(event, context)`;
an error is logged once and re-thrown (the returned function is `async`,
so it rejects, never throws synchronously). -/
def createMiddleware (middleware : Mw) (handler : JSFn) : JSFn :=
  fun event context =>
    match runCall (middleware event context) (fun _ => awaitF handler event context) with
    | (tr, .ok v) => (tr, .resolved v)
    | (tr, .error e) => (tr ++ [.logged e], .rejected e)

/-- Closure state of one `createHandler` builder: the terminal handler, the
`staticCompose` option, the `middlewareChain` array and the
`composedHandler` cache (`null` modelled as `none`). -/
structure Builder where
  handler : JSFn
  staticCompose : Bool
  middlewareChain : List Mw
  composedHandler : Option JSFn

/-- Translation of `createHandler` (src/index.js lines 67-124): fresh
builder with an empty chain and no composed handler. -/
def createHandler (handler : JSFn) (staticCompose : Bool) : Builder :=
  ⟨handler, staticCompose, [], none⟩

/-- An argument passed to `.use`: a function, or any non-function value
(opaquely tagged), distinguished by the source's `typeof` check. -/
inductive JsArg where
  | fn : Mw → JsArg
  | other : Nat → JsArg

/-- The two exception kinds `.use` can throw. -/
inductive UseError where
  | typeError : String → UseError
  | stateError : String → UseError
deriving DecidableEq, Repr

/-- Translation of `addMiddleware` (src/index.js lines 107-118): rejects a
non-function argument with a `TypeError`; in static mode after composition
rejects with a state `Error`; otherwise pushes the middleware and returns
the builder. A thrown exception leaves the closure state unchanged, so the
result is the (possibly unchanged) state paired with the exception. -/
def addMiddleware (b : Builder) (middleware : JsArg) : Builder × Option UseError :=
  match middleware with
  | .other _ => (b, some (.typeError "El parametro `middleware` debe ser una función."))
  | .fn m =>
      if b.staticCompose && b.composedHandler.isSome then
        (b, some (.stateError "Cannot add middleware after handler has been invoked when `staticCompose` is `true`."))
      else
        ({ b with middlewareChain := b.middlewareChain ++ [m] }, none)

/-- Translation of the `reduce` in `finalHandler` (src/index.js lines
91-96): fold the chain around the terminal handler; JS `Array.reduce` is a
left fold, so the first array element is wrapped first (innermost). -/
def composeChain (chain : List Mw) (handler : JSFn) : JSFn :=
  chain.foldl (fun wrappedHandler nextMiddleware => createMiddleware nextMiddleware wrappedHandler) handler

/-- A fulfilled/rejected settlement seen through the builder's `async`
entry point: a synchronous throw of the bare handler becomes a rejection. -/
def asyncify : Outcome → Outcome
  | .thrown e => .rejected e
  | o => o

/-- Translation of invoking `finalHandler` (src/index.js lines 90-100):
recompose unless a cached composed handler exists and `staticCompose` is
on, store the composed handler, run it. Returns the updated closure state
and the invocation's trace and settlement. -/
def invoke (b : Builder) (event context : Nat) : Builder × (List Ev × Outcome) :=
  match b.composedHandler, b.staticCompose with
  | some c0, true =>
      ({ b with composedHandler := some c0 },
       ((c0 event context).1, asyncify (c0 event context).2))
  | _, _ =>
      ({ b with composedHandler := some (composeChain b.middlewareChain b.handler) },
       ((composeChain b.middlewareChain b.handler event context).1,
        asyncify (composeChain b.middlewareChain b.handler event context).2))

/-- Register a list of middlewares via repeated `.use` calls, keeping only
the closure state (exceptions from individual calls are dropped). -/
def useAll (b : Builder) (ms : List Mw) : Builder :=
  ms.foldl (fun b' m => (addMiddleware b' (.fn m)).1) b

/-! ## Instrumentation used by the theorems

Concrete middleware shapes whose control flow around `next` is explicit,
each emitting a marker event first so that execution and its order are
observable in the trace. -/

/-- The three middleware behaviours the testable properties talk about:
delegate once and relay the result (`pass`), never call `next` and return
a value (`stop`), or call `next` twice and return the second result
(`twice`). -/
inductive MwKind where
  | pass : MwKind
  | stop : Nat → MwKind
  | twice : MwKind

/-- Relay a settled `next()` result: return the value, re-throw the error. -/
def relay : Except Nat Nat → Prog
  | .ok v => .ret v
  | .error e => .throw e

/-- Body program of each middleware kind. -/
def mkProg : MwKind → Prog
  | .pass => .callNext relay
  | .stop v => .ret v
  | .twice => .callNext (fun r =>
      match r with
      | .error e => .throw e
      | .ok _ => .callNext relay)

/-- An instrumented middleware: emits `mark i event context` first, then
behaves per its kind. -/
def mkMw (mark : Nat → Nat → Nat → Ev) (p : Nat × MwKind) : Mw :=
  fun event context => .body (.emit (mark p.1 event context) (mkProg p.2))

/-- Marker constructor that records only the identity of the link. -/
def ranMark : Nat → Nat → Nat → Ev := fun i _ _ => Ev.ran i

/-- Terminal handler emitting marker `ran i` and fulfilling with `v`. -/
def ranH (i v : Nat) : JSFn := fun _ _ => ([Ev.ran i], .resolved v)

/-- Terminal handler recording the event and context it receives. -/
def sawH (i v : Nat) : JSFn := fun event context => ([Ev.saw i event context], .resolved v)

/-- Expected awaited evaluation of a chain given outermost-first; `mk i` is
the marker link `i` emits, the last argument is the awaited evaluation of
the terminal handler. -/
def chainEval (mk : Nat → Ev) : List (Nat × MwKind) → List Ev × Except Nat Nat → List Ev × Except Nat Nat
  | [], hr => hr
  | (i, .pass) :: rest, hr =>
      match chainEval mk rest hr with
      | (tr, .ok v) => (mk i :: tr, .ok v)
      | (tr, .error e) => ((mk i :: tr) ++ [.logged e], .error e)
  | (i, .stop v) :: _, _ => ([mk i], .ok v)
  | (i, .twice) :: rest, hr =>
      match chainEval mk rest hr with
      | (tr, .ok v) => (mk i :: (tr ++ tr), .ok v)
      | (tr, .error e) => ((mk i :: tr) ++ [.logged e], .error e)

/-- Nesting of links with the head of the list outermost (the reverse view
of `composeChain`). -/
def nest : List Mw → JSFn → JSFn
  | [], handler => handler
  | m :: rest, handler => createMiddleware m (nest rest handler)

/-- Forget the promise view of an awaited result. -/
def outcomify : List Ev × Except Nat Nat → List Ev × Outcome
  | (tr, .ok v) => (tr, .resolved v)
  | (tr, .error e) => (tr, .rejected e)

/-! ## Bridge lemmas -/

/-- Awaiting one composed link: the middleware's run, with the core's log
line appended on the error path. -/
lemma awaitF_link (m : Mw) (h : JSFn) (event context : Nat) :
    awaitF (createMiddleware m h) event context
      = (match runCall (m event context) (fun _ => awaitF h event context) with
         | (tr, .ok v) => (tr, Except.ok v)
         | (tr, .error e) => (tr ++ [Ev.logged e], Except.error e)) := by
  rcases hr : runCall (m event context) (fun _ => awaitF h event context) with ⟨tr, r⟩
  have hgoal : awaitF (createMiddleware m h) event context
      = ((createMiddleware m h event context).1,
         settle (dethrow (createMiddleware m h event context).2)) := rfl
  cases r with
  | ok v =>
    have hcm : createMiddleware m h event context = (tr, Outcome.resolved v) := by
      unfold createMiddleware
      rw [hr]
    rw [hgoal, hcm]
    rfl
  | error e =>
    have hcm : createMiddleware m h event context = (tr ++ [Ev.logged e], Outcome.rejected e) := by
      unfold createMiddleware
      rw [hr]
    rw [hgoal, hcm]
    rfl

/-- Awaiting a nest of instrumented links computes `chainEval`. -/
lemma nest_eval (mark : Nat → Nat → Nat → Ev) (h : JSFn) (event context : Nat) :
    ∀ r : List (Nat × MwKind),
      awaitF (nest (r.map (mkMw mark)) h) event context
        = chainEval (fun i => mark i event context) r (awaitF h event context) := by
  intro r
  induction r with
  | nil => rfl
  | cons p rest ih =>
    rcases p with ⟨i, k⟩
    rw [List.map_cons]
    show awaitF (createMiddleware (mkMw mark (i, k)) (nest (rest.map (mkMw mark)) h)) event context = _
    rw [awaitF_link]
    have hnext : (fun _ : Unit => awaitF (nest (rest.map (mkMw mark)) h) event context)
        = fun _ : Unit => chainEval (fun i => mark i event context) rest (awaitF h event context) := by
      funext u
      exact ih
    rcases hce : chainEval (fun i => mark i event context) rest (awaitF h event context) with ⟨tr, res⟩
    have hconst : (fun _ : Unit => chainEval (fun i => mark i event context) rest (awaitF h event context))
        = fun _ : Unit => (tr, res) := by
      funext u
      exact hce
    rw [hnext, hconst]
    cases k with
    | pass =>
      cases res with
      | ok v => simp [runCall, mkMw, mkProg, Prog.run, relay, chainEval, hce]
      | error e => simp [runCall, mkMw, mkProg, Prog.run, relay, chainEval, hce]
    | stop v => simp [runCall, mkMw, mkProg, Prog.run, chainEval, hce]
    | twice =>
      cases res with
      | ok v => simp [runCall, mkMw, mkProg, Prog.run, relay, chainEval, hce]
      | error e => simp [runCall, mkMw, mkProg, Prog.run, relay, chainEval, hce]

lemma nest_append_single (xs : List Mw) (m : Mw) (h : JSFn) :
    nest (xs ++ [m]) h = nest xs (createMiddleware m h) := by
  induction xs with
  | nil => rfl
  | cons a as ih => simp [nest, ih]

/-- The source's left fold equals nesting the reversed chain: the LAST
element of `middlewareChain` becomes the outermost link. -/
lemma compose_eq_nest (chain : List Mw) (h : JSFn) :
    composeChain chain h = nest chain.reverse h := by
  induction chain generalizing h with
  | nil => rfl
  | cons m rest ih =>
    have h1 : composeChain (m :: rest) h = composeChain rest (createMiddleware m h) := rfl
    rw [h1, ih, List.reverse_cons, nest_append_single]

/-- Registering middlewares on a dynamic-mode builder only appends them. -/
lemma useAll_dynamic : ∀ (ms : List Mw) (b : Builder), b.staticCompose = false →
    useAll b ms = { b with middlewareChain := b.middlewareChain ++ ms } := by
  intro ms
  induction ms with
  | nil => intro b hb; simp [useAll]
  | cons m rest ih =>
    intro b hb
    have hstep : (addMiddleware b (.fn m)).1 = { b with middlewareChain := b.middlewareChain ++ [m] } := by
      simp [addMiddleware, hb]
    have hfold : useAll b (m :: rest) = useAll { b with middlewareChain := b.middlewareChain ++ [m] } rest := by
      simp [useAll, hstep]
    rw [hfold, ih { b with middlewareChain := b.middlewareChain ++ [m] } hb]
    simp

/-- In dynamic mode every invocation recomposes from the current chain. -/
lemma invoke_dynamic (b : Builder) (event context : Nat) (hb : b.staticCompose = false) :
    invoke b event context
      = ({ b with composedHandler := some (composeChain b.middlewareChain b.handler) },
         ((composeChain b.middlewareChain b.handler event context).1,
          asyncify (composeChain b.middlewareChain b.handler event context).2)) := by
  unfold invoke
  rw [hb]
  rcases hopt : b.composedHandler with _ | c0 <;> rfl

/-- The builder's async entry point around a bare function agrees with the
awaited view. -/
lemma asyncify_eq_outcomify_awaitF (h : JSFn) (event context : Nat) :
    ((h event context).1, asyncify (h event context).2) = outcomify (awaitF h event context) := by
  rcases hr : h event context with ⟨tr, o⟩
  cases o <;> simp [awaitF, ensureAsync, settle, dethrow, asyncify, outcomify, hr]

/-- A composed link never throws synchronously. -/
lemma link_no_thrown (m : Mw) (h : JSFn) (event context : Nat) :
    asyncify (createMiddleware m h event context).2 = (createMiddleware m h event context).2 := by
  rcases hr : runCall (m event context) (fun _ => awaitF h event context) with ⟨tr, r⟩
  cases r with
  | ok v =>
    have hcm : createMiddleware m h event context = (tr, Outcome.resolved v) := by
      unfold createMiddleware
      rw [hr]
    rw [hcm]
    rfl
  | error e =>
    have hcm : createMiddleware m h event context = (tr ++ [Ev.logged e], Outcome.rejected e) := by
      unfold createMiddleware
      rw [hr]
    rw [hcm]
    rfl

/-- A composed link's raw result is its awaited view, repackaged. -/
lemma link_outcomify (m : Mw) (h : JSFn) (event context : Nat) :
    createMiddleware m h event context = outcomify (awaitF (createMiddleware m h) event context) := by
  rw [awaitF_link]
  rcases hr : runCall (m event context) (fun _ => awaitF h event context) with ⟨tr, r⟩
  cases r with
  | ok v =>
    have hcm : createMiddleware m h event context = (tr, Outcome.resolved v) := by
      unfold createMiddleware
      rw [hr]
    rw [hcm]
    rfl
  | error e =>
    have hcm : createMiddleware m h event context = (tr ++ [Ev.logged e], Outcome.rejected e) := by
      unfold createMiddleware
      rw [hr]
    rw [hcm]
    rfl

/-- Main evaluation lemma: invoking a freshly built dynamic builder holding
instrumented middlewares computes `chainEval` on the REVERSED registration
list (the last-registered middleware is outermost). -/
lemma invoke_useAll_eval (mark : Nat → Nat → Nat → Ev) (l : List (Nat × MwKind)) (h : JSFn) (event context : Nat) :
    (invoke (useAll (createHandler h false) (l.map (mkMw mark))) event context).2
      = outcomify (chainEval (fun i => mark i event context) l.reverse (awaitF h event context)) := by
  have hb : useAll (createHandler h false) (l.map (mkMw mark))
      = { handler := h, staticCompose := false, middlewareChain := l.map (mkMw mark), composedHandler := none } := by
    have h0 := useAll_dynamic (l.map (mkMw mark)) (createHandler h false) rfl
    simpa [createHandler] using h0
  rw [hb, invoke_dynamic _ _ _ rfl]
  have hrv : (l.map (mkMw mark)).reverse = l.reverse.map (mkMw mark) := by
    simp [List.map_reverse]
  rcases hrev : l.reverse with _ | ⟨a, as⟩
  · have hl : l = [] := by simpa using congrArg List.reverse hrev
    subst hl
    simpa [composeChain, chainEval] using asyncify_eq_outcomify_awaitF h event context
  · have hchain : composeChain (l.map (mkMw mark)) h
        = createMiddleware (mkMw mark a) (nest (as.map (mkMw mark)) h) := by
      rw [compose_eq_nest, hrv, hrev, List.map_cons]
      rfl
    rw [hchain]
    have hpair : ((createMiddleware (mkMw mark a) (nest (as.map (mkMw mark)) h) event context).1,
        asyncify (createMiddleware (mkMw mark a) (nest (as.map (mkMw mark)) h) event context).2)
        = createMiddleware (mkMw mark a) (nest (as.map (mkMw mark)) h) event context := by
      rw [link_no_thrown]
    rw [hpair, link_outcomify]
    have hnev := nest_eval mark h event context (a :: as)
    rw [List.map_cons] at hnev
    have hnest : nest (mkMw mark a :: List.map (mkMw mark) as) h
        = createMiddleware (mkMw mark a) (nest (List.map (mkMw mark) as) h) := rfl
    rw [hnest] at hnev
    rw [hnev]

/-! ## Computation lemmas for `chainEval` -/

lemma outcomify_fst (x : List Ev × Except Nat Nat) : (outcomify x).1 = x.1 := by
  rcases x with ⟨tr, r⟩
  cases r <;> rfl

/-- A block of relaying middlewares over a fulfilled inner stage prepends
its markers in (outermost-first) order. -/
lemma chainEval_pass_ok (mk : Nat → Ev) :
    ∀ (ids : List Nat) (htr : List Ev) (v : Nat),
      chainEval mk (ids.map (fun j => (j, MwKind.pass))) (htr, .ok v) = (ids.map mk ++ htr, .ok v) := by
  intro ids
  induction ids with
  | nil => intro htr v; rfl
  | cons i rest ih =>
    intro htr v
    simp only [List.map_cons, chainEval, ih, List.cons_append]

/-- A block of relaying middlewares wrapped around a short-circuiting
middleware: only the outer markers and the short-circuit marker appear;
everything inner (and the terminal stage) is dead. -/
lemma chainEval_pass_stop (mk : Nat → Ev) :
    ∀ (ids : List Nat) (s w : Nat) (rest : List (Nat × MwKind)) (hr : List Ev × Except Nat Nat),
      chainEval mk (ids.map (fun j => (j, MwKind.pass)) ++ (s, MwKind.stop w) :: rest) hr
        = (ids.map mk ++ [mk s], .ok w) := by
  intro ids
  induction ids with
  | nil => intro s w rest hr; rfl
  | cons i irest ih =>
    intro s w rest hr
    simp only [List.map_cons, List.cons_append, chainEval, List.append_eq]
    rw [ih]

/-- Relaying middlewares never swallow an inner error. -/
lemma chainEval_pass_error (mk : Nat → Ev) :
    ∀ (ids : List Nat) (htr : List Ev) (e : Nat),
      (chainEval mk (ids.map (fun j => (j, MwKind.pass))) (htr, .error e)).2 = .error e := by
  intro ids
  induction ids with
  | nil => intro htr e; rfl
  | cons i rest ih =>
    intro htr e
    rcases hce : chainEval mk (rest.map (fun j => (j, MwKind.pass))) (htr, .error e) with ⟨tr, r⟩
    have hr2 : r = .error e := by
      have := ih htr e
      rw [hce] at this
      exact this
    subst hr2
    simp only [List.map_cons, chainEval, hce]

/-- Entry of the boolean middleware family used for the if-and-only-if
property: `true` delegates to `next`, `false` short-circuits with a value. -/
def boolKind (p : Nat × Bool × Nat) : Nat × MwKind :=
  (p.1, if p.2.1 then MwKind.pass else MwKind.stop p.2.2)

lemma chainEval_boolKind_ok (mk : Nat → Ev) :
    ∀ (bl : List (Nat × Bool × Nat)) (htr : List Ev) (v : Nat),
      ∃ tr w, chainEval mk (bl.map boolKind) (htr, .ok v) = (tr, .ok w) := by
  intro bl
  induction bl with
  | nil => intro htr v; exact ⟨htr, v, rfl⟩
  | cons p rest ih =>
    intro htr v
    rcases ih htr v with ⟨tr, w, hce⟩
    cases hp : p.2.1 with
    | true =>
      refine ⟨mk p.1 :: tr, w, ?_⟩
      simp only [List.map_cons, boolKind, hp, if_true, chainEval, hce]
    | false =>
      refine ⟨[mk p.1], p.2.2, ?_⟩
      simp only [List.map_cons, boolKind, hp, if_false, chainEval]

/-- If every middleware delegates, the markers appear in list order over
the terminal stage's trace. -/
lemma chainEval_all_true (mk : Nat → Ev) :
    ∀ (bl : List (Nat × Bool × Nat)) (htr : List Ev) (v : Nat),
      (∀ p ∈ bl, p.2.1 = true) →
      chainEval mk (bl.map boolKind) (htr, .ok v) = (bl.map (fun p => mk p.1) ++ htr, .ok v) := by
  intro bl
  induction bl with
  | nil => intro htr v _; rfl
  | cons p rest ih =>
    intro htr v hall
    have hp : p.2.1 = true := hall p (List.mem_cons_self p rest)
    have hrest : ∀ q ∈ rest, q.2.1 = true := fun q hq => hall q (List.mem_cons_of_mem p hq)
    simp only [List.map_cons, boolKind, hp, if_true, chainEval, ih htr v hrest, List.cons_append]

/-- If some middleware short-circuits, the trace is strictly shorter than
what full delegation produces. -/
lemma chainEval_has_false_len (mk : Nat → Ev) :
    ∀ (bl : List (Nat × Bool × Nat)) (htr : List Ev) (v : Nat),
      (∃ p ∈ bl, p.2.1 = false) →
      (chainEval mk (bl.map boolKind) (htr, .ok v)).1.length ≤ bl.length := by
  intro bl
  induction bl with
  | nil =>
    intro htr v hex
    rcases hex with ⟨p, hp, _⟩
    exact absurd hp (List.not_mem_nil p)
  | cons p rest ih =>
    intro htr v hex
    cases hp : p.2.1 with
    | false =>
      simp only [List.map_cons, boolKind, hp, if_false, chainEval, List.length_cons,
        List.length_nil]
      omega
    | true =>
      have hex' : ∃ q ∈ rest, q.2.1 = false := by
        rcases hex with ⟨q, hq, hqf⟩
        rcases List.mem_cons.mp hq with hq1 | hq2
        · subst hq1
          rw [hp] at hqf
          exact absurd hqf (by simp)
        · exact ⟨q, hq2, hqf⟩
      rcases chainEval_boolKind_ok mk rest htr v with ⟨tr, w, hce⟩
      have hlen := ih htr v hex'
      rw [hce] at hlen
      simp only [List.map_cons, boolKind, hp, if_true, chainEval, hce, List.length_cons]
      simpa using Nat.succ_le_succ hlen

/-! ## Claim theorems -/

/-- C1 counterexample: two delegating middlewares registered in order 0
then 1 over terminal marker 2. The invocation trace is
`ran 1, ran 0, ran 2` — REVERSE registration order — not the registration
order `ran 0, ran 1, ran 2` the claim predicts. -/
theorem c1_counterexample :
    (invoke (useAll (createHandler (ranH 2 7) false)
        [mkMw ranMark (0, MwKind.pass), mkMw ranMark (1, MwKind.pass)]) 0 0).2
      = ([Ev.ran 1, Ev.ran 0, Ev.ran 2], Outcome.resolved 7)
    ∧ [Ev.ran 1, Ev.ran 0, Ev.ran 2] ≠ [Ev.ran 0, Ev.ran 1, Ev.ran 2] := by
  constructor
  · rfl
  · decide

/-- C1 (amended): for every terminal handler marker and every sequence of
middlewares registered via repeated `.use`, invoking the built handler
executes the middlewares in REVERSE registration order from outermost to
innermost (the last-registered middleware runs first) with the terminal
handler last, if and only if every middleware calls `next()`. Middlewares
are drawn from the boolean family: `true` delegates once, `false` returns
a value without calling `next`. -/
theorem c1_reverse_order_iff_all_call_next (l : List (Nat × Bool × Nat)) (hid hv event context : Nat) :
    (invoke (useAll (createHandler (ranH hid hv) false) ((l.map boolKind).map (mkMw ranMark))) event context).2.1
        = (l.map (fun p => p.1)).reverse.map Ev.ran ++ [Ev.ran hid]
      ↔ ∀ p ∈ l, p.2.1 = true := by
  have heval := invoke_useAll_eval ranMark (l.map boolKind) (ranH hid hv) event context
  have hrev : (l.map boolKind).reverse = l.reverse.map boolKind := by
    simp [List.map_reverse]
  have hawait : awaitF (ranH hid hv) event context = ([Ev.ran hid], Except.ok hv) := rfl
  rw [hrev, hawait] at heval
  have hmk : (fun i => ranMark i event context) = Ev.ran := rfl
  rw [hmk] at heval
  have htr : (invoke (useAll (createHandler (ranH hid hv) false) ((l.map boolKind).map (mkMw ranMark))) event context).2.1
      = (chainEval Ev.ran (l.reverse.map boolKind) ([Ev.ran hid], Except.ok hv)).1 := by
    rw [heval, outcomify_fst]
  constructor
  · intro hexp
    by_contra hnot
    push_neg at hnot
    rcases hnot with ⟨p, hp, hpf⟩
    have hpf' : p.2.1 = false := by
      cases hb : p.2.1 with
      | false => rfl
      | true => exact absurd hb hpf
    have hex : ∃ q ∈ l.reverse, q.2.1 = false := ⟨p, List.mem_reverse.mpr hp, hpf'⟩
    have hlen := chainEval_has_false_len Ev.ran l.reverse [Ev.ran hid] hv hex
    rw [htr] at hexp
    have hlen2 : (chainEval Ev.ran (l.reverse.map boolKind) ([Ev.ran hid], Except.ok hv)).1.length
        = l.length + 1 := by
      rw [hexp]
      simp
    rw [List.length_reverse] at hlen
    omega
  · intro hall
    have hall' : ∀ p ∈ l.reverse, p.2.1 = true := fun p hp => hall p (List.mem_reverse.mp hp)
    have hce := chainEval_all_true Ev.ran l.reverse [Ev.ran hid] hv hall'
    rw [htr, hce]
    simp [List.map_reverse, List.map_map, Function.comp]

/-- C2 counterexample: the middleware at registration position 0 never
calls `next` (returning 7), position 1 delegates; the claim predicts that
no middleware at position greater than 0 executes, yet the trace contains
`ran 1`: the position-1 middleware ran (first, being outermost). -/
theorem c2_counterexample :
    (invoke (useAll (createHandler (ranH 9 0) false)
        [mkMw ranMark (0, MwKind.stop 7), mkMw ranMark (1, MwKind.pass)]) 0 0).2
      = ([Ev.ran 1, Ev.ran 0], Outcome.resolved 7)
    ∧ Ev.ran 1 ∈ [Ev.ran 1, Ev.ran 0] := by
  constructor
  · rfl
  · decide

/-- C2 (amended): if the middleware at registration position `k` (here:
the `stop` entry, preceded by `pre` and followed by the delegating
`postIds`) never calls `next`, while every middleware at a position
greater than `k` delegates and relays, then no middleware at a position
LESS than `k` executes, the terminal handler does not execute, and the
overall result is exactly the value that middleware returns; the trace
consists solely of the outer (later-registered) markers in reverse
registration order followed by the short-circuiting middleware's marker. -/
theorem c2_short_circuit (pre : List (Nat × MwKind)) (s v : Nat) (postIds : List Nat) (h : JSFn) (event context : Nat) :
    (invoke (useAll (createHandler h false)
        ((pre ++ (s, MwKind.stop v) :: postIds.map (fun j => (j, MwKind.pass))).map (mkMw ranMark))) event context).2
      = (postIds.reverse.map Ev.ran ++ [Ev.ran s], Outcome.resolved v)
    ∧ ∀ j : Nat, Ev.ran j ∈ postIds.reverse.map Ev.ran ++ [Ev.ran s] → j ∈ postIds ∨ j = s := by
  constructor
  · have heval := invoke_useAll_eval ranMark
      (pre ++ (s, MwKind.stop v) :: postIds.map (fun j => (j, MwKind.pass))) h event context
    have hrevl : (pre ++ (s, MwKind.stop v) :: postIds.map (fun j => (j, MwKind.pass))).reverse
        = postIds.reverse.map (fun j => (j, MwKind.pass)) ++ (s, MwKind.stop v) :: pre.reverse := by
      simp [List.reverse_append, List.map_reverse]
    rw [hrevl] at heval
    have hmk : (fun i => ranMark i event context) = Ev.ran := rfl
    rw [hmk] at heval
    rw [heval, chainEval_pass_stop]
    rfl
  · intro j hj
    rcases List.mem_append.mp hj with hj1 | hj2
    · rcases List.mem_map.mp hj1 with ⟨i, hi, hie⟩
      left
      have hij : i = j := Ev.ran.inj hie
      rw [hij] at hi
      exact List.mem_reverse.mp hi
    · right
      have hjs : Ev.ran j = Ev.ran s := by simpa using hj2
      exact Ev.ran.inj hjs

/-- C3: a middleware that calls `next()` twice (registered last, hence
outermost) causes the remainder of the chain — the earlier-registered
delegating middlewares and the terminal handler — to execute twice: the
inner trace segment appears twice, and each recorded `saw` entry carries
the same `(event, context)` on both runs. Each `next()` call re-invokes
the inner wrapped handler afresh (no memoization). -/
theorem c3_next_twice_runs_remainder_twice (j hid hv event context : Nat) (ids : List Nat) :
    (invoke (useAll (createHandler (sawH hid hv) false)
        ((ids.map (fun i => (i, MwKind.pass)) ++ [(j, MwKind.twice)]).map (mkMw Ev.saw))) event context).2
      = (Ev.saw j event context ::
          ((ids.reverse.map (fun i => Ev.saw i event context) ++ [Ev.saw hid event context])
            ++ (ids.reverse.map (fun i => Ev.saw i event context) ++ [Ev.saw hid event context])),
         Outcome.resolved hv) := by
  have heval := invoke_useAll_eval Ev.saw (ids.map (fun i => (i, MwKind.pass)) ++ [(j, MwKind.twice)])
    (sawH hid hv) event context
  have hrevl : (ids.map (fun i => (i, MwKind.pass)) ++ [(j, MwKind.twice)]).reverse
      = (j, MwKind.twice) :: ids.reverse.map (fun i => (i, MwKind.pass)) := by
    simp [List.reverse_append, List.map_reverse]
  rw [hrevl] at heval
  have hawait : awaitF (sawH hid hv) event context = ([Ev.saw hid event context], Except.ok hv) := rfl
  rw [hawait] at heval
  rw [heval]
  have hpass := chainEval_pass_ok (fun i => Ev.saw i event context) ids.reverse [Ev.saw hid event context] hv
  simp only [chainEval, hpass]
  rfl

/-- C4: `ensureAsync` preserves the wrapped function's effects (it invokes
it exactly once per call) and never lets a synchronous throw escape: the
outcome is never `thrown`. Consequently a terminal handler that throws
synchronously is observably equivalent, through any composed chain and in
either composition mode, to one that rejects with the same error; the same
holds for a middleware that throws synchronously versus one whose body
rejects with the same error. -/
theorem c4_sync_throw_equiv_async_reject :
    (∀ (f : JSFn) (event context : Nat),
        (ensureAsync f event context).1 = (f event context).1
        ∧ ∀ e : Nat, (ensureAsync f event context).2 ≠ Outcome.thrown e)
    ∧ (∀ (tr0 : List Ev) (e : Nat) (chain : List Mw) (cfg : Bool) (event context : Nat),
        (invoke ⟨fun _ _ => (tr0, Outcome.thrown e), cfg, chain, none⟩ event context).2
          = (invoke ⟨fun _ _ => (tr0, Outcome.rejected e), cfg, chain, none⟩ event context).2)
    ∧ (∀ (e : Nat) (h : JSFn),
        createMiddleware (fun _ _ => MwCall.sthrow e) h
          = createMiddleware (fun _ _ => MwCall.body (Prog.throw e)) h) := by
  refine ⟨?_, ?_, ?_⟩
  · intro f event context
    constructor
    · rfl
    · intro e
      rcases hr : (f event context).2 with e0 | v0 | e0 <;> simp [ensureAsync, dethrow, hr]
  · intro tr0 e chain cfg event context
    cases chain with
    | nil => rfl
    | cons m rest =>
      have hcomp : composeChain (m :: rest) (fun _ _ => (tr0, Outcome.thrown e))
          = composeChain (m :: rest) (fun _ _ => (tr0, Outcome.rejected e)) := by
        have hlink : createMiddleware m (fun _ _ => (tr0, Outcome.thrown e))
            = createMiddleware m (fun _ _ => (tr0, Outcome.rejected e)) := rfl
        show composeChain rest (createMiddleware m (fun _ _ => (tr0, Outcome.thrown e))) = _
        rw [hlink]
        rfl
      show ((composeChain (m :: rest) (fun _ _ => (tr0, Outcome.thrown e)) event context).1,
            asyncify (composeChain (m :: rest) (fun _ _ => (tr0, Outcome.thrown e)) event context).2)
          = ((composeChain (m :: rest) (fun _ _ => (tr0, Outcome.rejected e)) event context).1,
            asyncify (composeChain (m :: rest) (fun _ _ => (tr0, Outcome.rejected e)) event context).2)
      rw [hcomp]
  · intro e h
    rfl

/-- C5: a middleware link that fails with error `e` appends exactly one
log entry for `e` to its trace and re-throws `e` unchanged (the link
rejects with the very same error); and through a whole chain of delegating
middlewares over a rejecting terminal handler, the error escaping the
top-level invocation is still the original error — the core never swallows
or replaces it. -/
theorem c5_log_once_and_rethrow (m : Mw) (h : JSFn) (event context : Nat) (tr : List Ev) (e : Nat)
    (hrun : runCall (m event context) (fun _ => awaitF h event context) = (tr, Except.error e)) :
    createMiddleware m h event context = (tr ++ [Ev.logged e], Outcome.rejected e)
    ∧ ∀ (ids : List Nat) (htr : List Ev) (e0 ev0 ctx0 : Nat),
        (invoke (useAll (createHandler (fun _ _ => (htr, Outcome.rejected e0)) false)
          ((ids.map (fun i => (i, MwKind.pass))).map (mkMw ranMark))) ev0 ctx0).2.2
          = Outcome.rejected e0 := by
  constructor
  · unfold createMiddleware
    rw [hrun]
  · intro ids htr e0 ev0 ctx0
    have heval := invoke_useAll_eval ranMark (ids.map (fun i => (i, MwKind.pass)))
      (fun _ _ => (htr, Outcome.rejected e0)) ev0 ctx0
    have hrevl : (ids.map (fun i => (i, MwKind.pass))).reverse
        = ids.reverse.map (fun i => (i, MwKind.pass)) := by
      simp [List.map_reverse]
    rw [hrevl] at heval
    have hawait : awaitF (fun _ _ => (htr, Outcome.rejected e0)) ev0 ctx0 = (htr, Except.error e0) := rfl
    rw [hawait] at heval
    have hsnd := chainEval_pass_error (fun i => ranMark i ev0 ctx0) ids.reverse htr e0
    rcases hch : chainEval (fun i => ranMark i ev0 ctx0) (ids.reverse.map (fun j => (j, MwKind.pass)))
        (htr, Except.error e0) with ⟨tr1, r1⟩
    rw [hch] at hsnd heval
    have hr1 : r1 = Except.error e0 := hsnd
    subst hr1
    rw [heval]
    rfl

/-- C5 witness: a middleware body that rejects with 5 over a trivial
handler produces exactly one log entry for 5 and rejects with 5. -/
theorem c5_witness :
    createMiddleware (fun _ _ => MwCall.body (Prog.throw 5)) (fun _ _ => ([], Outcome.resolved 0)) 0 0
      = ([Ev.logged 5], Outcome.rejected 5) :=
  (c5_log_once_and_rethrow (fun _ _ => MwCall.body (Prog.throw 5))
    (fun _ _ => ([], Outcome.resolved 0)) 0 0 [] 5 rfl).1

/-- C6: calling `.use` with a non-function argument fails synchronously
with the source's `TypeError` and leaves the builder state — in particular
the middleware list — exactly as it was; no middleware or handler is
invoked (the operation produces no trace and no invocation outcome). -/
theorem c6_use_non_function (b : Builder) (x : Nat) :
    addMiddleware b (.other x)
        = (b, some (.typeError "El parametro `middleware` debe ser una función."))
    ∧ (addMiddleware b (.other x)).1.middlewareChain = b.middlewareChain :=
  ⟨rfl, rfl⟩

/-- C7: in static-compose mode, once a composed handler exists (any
invocation sets it, and every invocation leaves it set, so the failure is
permanent) `.use` fails with the source's state error and changes nothing;
in dynamic mode `.use` always succeeds and every invocation recomposes
from the current middleware list, so an added middleware affects
subsequent invocations only. -/
theorem c7_static_freeze_dynamic_open :
    (∀ (b : Builder) (m : Mw), b.staticCompose = true → b.composedHandler.isSome = true →
        addMiddleware b (.fn m)
          = (b, some (.stateError "Cannot add middleware after handler has been invoked when `staticCompose` is `true`.")))
    ∧ (∀ (b : Builder) (event context : Nat), (invoke b event context).1.composedHandler.isSome = true)
    ∧ (∀ (b : Builder) (m : Mw), b.staticCompose = false →
        addMiddleware b (.fn m) = ({ b with middlewareChain := b.middlewareChain ++ [m] }, none))
    ∧ (∀ (b : Builder) (event context : Nat), b.staticCompose = false →
        (invoke b event context).2
          = ((composeChain b.middlewareChain b.handler event context).1,
             asyncify (composeChain b.middlewareChain b.handler event context).2)) := by
  refine ⟨?_, ?_, ?_, ?_⟩
  · intro b m hs hc
    simp [addMiddleware, hs, hc]
  · intro b event context
    unfold invoke
    rcases hopt : b.composedHandler with _ | c0
    · rfl
    · cases hb : b.staticCompose
      · rfl
      · rfl
  · intro b m hs
    simp [addMiddleware, hs]
  · intro b event context hs
    rw [invoke_dynamic b event context hs]

/-- C8: a successful `.use` appends the middleware to the END of the
internal list and changes nothing else of the builder's state, so fluent
chaining `builder.use(a).use(b).use(c)` accumulates `[a, b, c]` in order;
the builder's identity — its terminal handler, its configuration — is
stable across `.use` calls and invocations (an invocation touches only the
composed-handler cache, `.use` touches only the list). -/
theorem c8_use_appends_same_builder :
    (∀ (b : Builder) (m : Mw), (b.staticCompose && b.composedHandler.isSome) = false →
        addMiddleware b (.fn m) = ({ b with middlewareChain := b.middlewareChain ++ [m] }, none))
    ∧ (∀ (h : JSFn) (cfg : Bool) (m1 m2 m3 : Mw),
        (useAll (createHandler h cfg) [m1, m2, m3]).middlewareChain = [m1, m2, m3])
    ∧ (∀ (b : Builder) (a : JsArg),
        (addMiddleware b a).1.handler = b.handler
        ∧ (addMiddleware b a).1.staticCompose = b.staticCompose
        ∧ (addMiddleware b a).1.composedHandler = b.composedHandler)
    ∧ (∀ (b : Builder) (event context : Nat),
        (invoke b event context).1.handler = b.handler
        ∧ (invoke b event context).1.staticCompose = b.staticCompose
        ∧ (invoke b event context).1.middlewareChain = b.middlewareChain) := by
  refine ⟨?_, ?_, ?_, ?_⟩
  · intro b m hg
    simp [addMiddleware, hg]
  · intro h cfg m1 m2 m3
    simp [useAll, addMiddleware, createHandler]
  · intro b a
    rcases a with m | x
    · cases hg : (b.staticCompose && b.composedHandler.isSome)
      · refine ⟨?_, ?_, ?_⟩ <;> simp [addMiddleware, hg]
      · refine ⟨?_, ?_, ?_⟩ <;> simp [addMiddleware, hg]
    · exact ⟨rfl, rfl, rfl⟩
  · intro b event context
    unfold invoke
    rcases hopt : b.composedHandler with _ | c0
    · exact ⟨rfl, rfl, rfl⟩
    · cases hb : b.staticCompose
      · exact ⟨rfl, rfl, rfl⟩
      · exact ⟨rfl, rfl, rfl⟩

/-- C9: every link of the composed chain — each middleware and the
terminal handler — receives exactly the `(event, context)` pair the
invocation was given, unchanged by the core: every `saw` entry in the
trace records the original pair. -/
theorem c9_same_event_context (ids : List Nat) (hid hv event context : Nat) :
    (invoke (useAll (createHandler (sawH hid hv) false)
        ((ids.map (fun i => (i, MwKind.pass))).map (mkMw Ev.saw))) event context).2
      = (ids.reverse.map (fun i => Ev.saw i event context) ++ [Ev.saw hid event context],
         Outcome.resolved hv) := by
  have heval := invoke_useAll_eval Ev.saw (ids.map (fun i => (i, MwKind.pass))) (sawH hid hv) event context
  have hrevl : (ids.map (fun i => (i, MwKind.pass))).reverse
      = ids.reverse.map (fun i => (i, MwKind.pass)) := by
    simp [List.map_reverse]
  rw [hrevl] at heval
  have hawait : awaitF (sawH hid hv) event context = ([Ev.saw hid event context], Except.ok hv) := rfl
  rw [hawait] at heval
  rw [heval, chainEval_pass_ok]
  rfl

/-- C10: before any `.use` call the middleware chain is empty, folding it
yields the terminal handler itself as the composed handler, and invoking
the builder runs the handler exactly once with the given pair — the trace
is exactly the handler's trace — returning the handler's result (through
the builder's async entry point). -/
theorem c10_empty_chain (h : JSFn) (cfg : Bool) (event context : Nat) :
    composeChain [] h = h
    ∧ (invoke (createHandler h cfg) event context).2
        = ((h event context).1, asyncify (h event context).2) :=
  ⟨rfl, rfl⟩

end LambdaMW
